import Mathlib

/-!
Shallow embedding of `src/Setup/Logger.{h,cpp}` of Squirrel.Windows:
a minimal synchronous file-append logger.

  std::string CLogger::getCurrentDateTime() {
      time_t now = time(0);  struct tm tstruct;  char buf[80];
      tstruct = *localtime(&now);
      strftime(buf, sizeof(buf), "[%d-%m-%Y %X]", &tstruct);
      return std::string(buf);
  }

  void CLogger::Log(wchar_t *path, const char *level, const wchar_t *logMsg) {
      std::wstring ws(logMsg);
      std::string strLogMsg(ws.begin(), ws.end());
      std::string now = getCurrentDateTime();
      std::ofstream ofs(path, std::ios_base::out | std::ios_base::app);
      ofs << now << '\t' << std::string(level) << '\t' << strLogMsg << '\n';
      ofs.close();
  }

Modelling choices, all taken from the source and the platform it targets
(MSVC / Windows CRT):
* Text is modelled as `List Nat`: a list of byte values for narrow strings
  and file contents, a list of `wchar_t` code-unit values for wide strings.
* `std::string strLogMsg(ws.begin(), ws.end())` converts each `wchar_t`
  to `char` by integral conversion, which on MSVC keeps the low 8 bits:
  byte value `c % 256` (`wideToNarrow`).
* The filesystem is a set of directories, an association list of files
  (path to byte contents) and a `diskFull` flag standing for an
  environment in which writes fail.  A path is a list of components;
  `std::ofstream` with `out|app` succeeds exactly when the parent
  directory exists, creates the file empty when absent, and every write
  appends at the end.  When open fails, or when the stream is in a failed
  state (disk full), `operator<<` writes nothing; the C++ code never
  inspects the stream state and `Log` returns `void` (modelled `Unit`).
* `localtime` on the Windows CRT returns a normalized `struct tm`
  (and only succeeds for times from 1970-01-01 through 3000-12-31, so
  `tm_year` lies in [70, 1100]); `Tm.Valid` records those ranges.
  `strftime` with `"[%d-%m-%Y %X]"` in the default "C" locale (the
  program never calls `setlocale`) renders `%d`, `%m` zero-padded to two
  digits, `%Y` as the plain decimal year and `%X` as `%H:%M:%S`.
-/

/-- A filesystem path: a list of name components (names coded as numbers;
their identity is all that matters). -/
abbrev FsPath := List Nat

/-- A byte string (or, for wide strings, a `wchar_t` string): list of
code-unit values. -/
abbrev Bytes := List Nat

/-- The byte value of the tab character. -/
def tabByte : Nat := 9

/-- The byte value of the newline character. -/
def nlByte : Nat := 10

/-- Association-list lookup of a file's contents by path. -/
def assocRead : List (FsPath × Bytes) → FsPath → Option Bytes
  | [], _ => none
  | (q, b) :: rest, p => if q = p then some b else assocRead rest p

/-- Filesystem state: the set of existing directories, the existing files
with their byte contents, and whether the storage rejects writes
(disk full). -/
structure FS where
  dirs : List FsPath
  files : List (FsPath × Bytes)
  diskFull : Bool
deriving DecidableEq, Repr

/-- The contents of the file at `p`, if it exists. -/
def FS.read (fs : FS) (p : FsPath) : Option Bytes :=
  assocRead fs.files p

/-- The contents of the file at `p`, defaulting to empty for an absent
file. -/
def FS.contentOf (fs : FS) (p : FsPath) : Bytes :=
  (fs.read p).getD []

/-- Replace (or create) the file at `p` with contents `b`. -/
def FS.write (fs : FS) (p : FsPath) (b : Bytes) : FS :=
  { fs with files := (p, b) :: fs.files }

/-- `std::ofstream ofs(path, out|app)`: succeeds iff the parent directory
exists; on success the file is created empty if absent.  Returns `none`
when the open fails (the stream's failbit is set and nothing on disk
changes). -/
def FS.openApp (fs : FS) (p : FsPath) : Option FS :=
  if p.dropLast ∈ fs.dirs then
    some (if (fs.read p).isSome then fs else fs.write p [])
  else
    none

/-- The result of `localtime` on a `time_t`: a normalized `struct tm`
(only the fields `strftime` reads for this format). -/
structure Tm where
  sec : Nat
  mnt : Nat
  hour : Nat
  mday : Nat
  mon : Nat
  year : Nat
deriving DecidableEq, Repr

/-- The ranges a `struct tm` produced by a successful Windows CRT
`localtime` call satisfies: normalized calendar fields (`tm_sec` may be
60 on a leap second) and a representable year, 1970 through 3000
(`tm_year` counts from 1900). -/
def Tm.Valid (t : Tm) : Prop :=
  t.sec ≤ 60 ∧ t.mnt ≤ 59 ∧ t.hour ≤ 23 ∧
  1 ≤ t.mday ∧ t.mday ≤ 31 ∧ t.mon ≤ 11 ∧
  70 ≤ t.year ∧ t.year ≤ 1100

instance (t : Tm) : Decidable t.Valid := by
  unfold Tm.Valid; infer_instance

/-- Decimal digits of `n`, most significant first, as ASCII byte values;
fuel-based so that it computes by kernel reduction.  Stops when `n = 0`. -/
def decCharsAux : Nat → Nat → Bytes → Bytes
  | 0, _, acc => acc
  | fuel + 1, n, acc =>
    if n = 0 then acc else decCharsAux fuel (n / 10) ((48 + n % 10) :: acc)

/-- The decimal rendering of `n` as ASCII bytes (what `printf`-style
`%d`-like conversion of a nonnegative value produces). -/
def decChars (n : Nat) : Bytes :=
  if n = 0 then [48] else decCharsAux n n []

/-- `strftime`'s two-digit zero-padded rendering (`%d`, `%m`, `%H`, `%M`,
`%S`) of a field value. -/
def pad2 (n : Nat) : Bytes :=
  if n < 10 then [48, 48 + n] else decChars n

/-- `CLogger::getCurrentDateTime`, as a function of the `struct tm` that
`localtime` produced: `strftime` with format `"[%d-%m-%Y %X]"` in the
"C" locale, i.e. `[DD-MM-YYYY HH:MM:SS]`.  Byte 91 is `[`, 45 is `-`,
32 is space, 58 is `:`, 93 is `]`. -/
def getCurrentDateTime (t : Tm) : Bytes :=
  [91] ++ pad2 t.mday ++ [45] ++ pad2 (t.mon + 1) ++ [45] ++
    decChars (1900 + t.year) ++ [32] ++ pad2 t.hour ++ [58] ++
    pad2 t.mnt ++ [58] ++ pad2 t.sec ++ [93]

/-- `std::string strLogMsg(ws.begin(), ws.end())`: each `wchar_t` is
converted to `char` by integral conversion, keeping the low 8 bits
(MSVC two's-complement truncation); the byte written to the file is the
value mod 256. -/
def wideToNarrow (msg : Bytes) : Bytes :=
  msg.map (fun c => c % 256)

/-- The bytes of the log line before its terminator:
`<timestamp> TAB <level> TAB <narrowed message>`. -/
def lineBody (t : Tm) (level : Bytes) (logMsg : Bytes) : Bytes :=
  getCurrentDateTime t ++ [tabByte] ++ level ++ [tabByte] ++ wideToNarrow logMsg

/-- One full on-disk log line: the body followed by a single newline. -/
def logLine (t : Tm) (level : Bytes) (logMsg : Bytes) : Bytes :=
  lineBody t level logMsg ++ [nlByte]

namespace CLogger

/-- `CLogger::Log`, as a state transformer on the filesystem, also given
the `struct tm` the wall clock yields during the call.  Follows the
source: narrow the message, format the timestamp, open in append mode,
write the six `<<` operands, close.  If the open failed, or the stream is
in a failed state because the storage rejects writes, `operator<<`
writes nothing; the code never checks the stream, and the function
returns `void` — the second component, always `()`, is the
caller-visible return value. -/
def Log (fs : FS) (path : FsPath) (level : Bytes) (logMsg : Bytes) (t : Tm) :
    FS × Unit :=
  match fs.openApp path with
  | none => (fs, ())
  | some fs1 =>
    if fs1.diskFull then
      (fs1, ())
    else
      (fs1.write path (fs1.contentOf path ++ logLine t level logMsg), ())

end CLogger

/-- One recorded call: the `level` and (wide) `logMsg` arguments, and the
wall-clock time at the moment of the call. -/
structure LogCall where
  level : Bytes
  msg : Bytes
  t : Tm
deriving DecidableEq, Repr

/-- A strictly sequential sequence of `Log` calls on the same path. -/
def logSeq (fs : FS) (p : FsPath) : List LogCall → FS
  | [] => fs
  | c :: rest => logSeq (CLogger.Log fs p c.level c.msg c.t).1 p rest

/-- The number of (newline-terminated) lines in a byte string. -/
def countLines (b : Bytes) : Nat :=
  b.count nlByte

/-- `l` is a string of exactly `n` ASCII decimal digits. -/
def IsDigits (n : Nat) (l : Bytes) : Prop :=
  l.length = n ∧ ∀ c ∈ l, 48 ≤ c ∧ c ≤ 57

/-- The byte string matches the pattern
`[\d-2-\d-2-\d-4 \d-2:\d-2:\d-2]`, i.e.
`[DD-MM-YYYY HH:MM:SS]` with every `D`-like position an ASCII digit. -/
def TsPattern (s : Bytes) : Prop :=
  ∃ d mo y h mi se : Bytes,
    IsDigits 2 d ∧ IsDigits 2 mo ∧ IsDigits 4 y ∧
    IsDigits 2 h ∧ IsDigits 2 mi ∧ IsDigits 2 se ∧
    s = [91] ++ d ++ [45] ++ mo ++ [45] ++ y ++ [32] ++ h ++ [58] ++
      mi ++ [58] ++ se ++ [93]

/-! ### Helper lemmas: decimal rendering -/

theorem decCharsAux_zeroN (fuel : Nat) (acc : Bytes) :
    decCharsAux fuel 0 acc = acc := by
  cases fuel <;> simp [decCharsAux]

theorem decCharsAux_unfold (fuel n : Nat) (acc : Bytes) (h1 : 0 < n)
    (h2 : n ≤ fuel) :
    decCharsAux fuel n acc =
      decCharsAux (fuel - 1) (n / 10) ((48 + n % 10) :: acc) := by
  cases fuel with
  | zero => omega
  | succ f => simp [decCharsAux, Nat.pos_iff_ne_zero.mp h1]

theorem mem_decCharsAux (fuel : Nat) :
    ∀ n acc c, c ∈ decCharsAux fuel n acc → c ∈ acc ∨ (48 ≤ c ∧ c ≤ 57) := by
  induction fuel with
  | zero => intro n acc c hc; exact Or.inl hc
  | succ f ih =>
    intro n acc c hc
    by_cases hn : n = 0
    · subst hn; simp [decCharsAux] at hc; exact Or.inl hc
    · simp only [decCharsAux, if_neg hn] at hc
      rcases ih _ _ _ hc with h | h
      · rcases List.mem_cons.mp h with h | h
        · subst h; right; constructor <;> omega
        · exact Or.inl h
      · exact Or.inr h

theorem mem_decChars (n c : Nat) (hc : c ∈ decChars n) : 48 ≤ c ∧ c ≤ 57 := by
  unfold decChars at hc
  split at hc
  · simp at hc; omega
  · rcases mem_decCharsAux n n [] c hc with h | h
    · simp at h
    · exact h

theorem mem_pad2 (n c : Nat) (hc : c ∈ pad2 n) : 48 ≤ c ∧ c ≤ 57 ∨ c = 48 + n := by
  unfold pad2 at hc
  split at hc
  · simp at hc
    rcases hc with h | h
    · left; omega
    · right; omega
  · exact Or.inl (mem_decChars n c hc)

theorem mem_pad2_ge48 (n c : Nat) (hc : c ∈ pad2 n) : 48 ≤ c := by
  rcases mem_pad2 n c hc with h | h <;> omega

theorem decChars_two (n : Nat) (h1 : 10 ≤ n) (h2 : n ≤ 99) :
    decChars n = [48 + n / 10, 48 + n % 10] := by
  unfold decChars
  rw [if_neg (by omega)]
  rw [decCharsAux_unfold n n [] (by omega) (by omega)]
  rw [decCharsAux_unfold (n - 1) (n / 10) _ (by omega) (by omega)]
  rw [Nat.div_div_eq_div_mul]
  rw [show n / (10 * 10) = 0 by omega, decCharsAux_zeroN]
  rw [Nat.mod_eq_of_lt (by omega : n / 10 < 10)]

theorem decChars_four (n : Nat) (h1 : 1000 ≤ n) (h2 : n ≤ 9999) :
    decChars n = [48 + n / 1000, 48 + n / 100 % 10, 48 + n / 10 % 10,
      48 + n % 10] := by
  unfold decChars
  rw [if_neg (by omega)]
  rw [decCharsAux_unfold n n [] (by omega) (by omega)]
  rw [decCharsAux_unfold (n - 1) (n / 10) _ (by omega) (by omega)]
  rw [Nat.div_div_eq_div_mul]
  rw [decCharsAux_unfold (n - 1 - 1) (n / (10 * 10)) _ (by omega) (by omega)]
  rw [Nat.div_div_eq_div_mul]
  rw [decCharsAux_unfold (n - 1 - 1 - 1) (n / (10 * 10 * 10)) _ (by omega)
    (by omega)]
  rw [Nat.div_div_eq_div_mul]
  rw [show n / (10 * 10 * 10 * 10) = 0 by omega, decCharsAux_zeroN]
  rw [show (10 * 10 : Nat) = 100 by rfl, show (10 * 10 * 10 : Nat) = 1000 by rfl]
  rw [Nat.mod_eq_of_lt (by omega : n / 1000 < 10)]

theorem isDigits_pad2 (n : Nat) (h : n ≤ 99) : IsDigits 2 (pad2 n) := by
  unfold pad2
  split
  · refine ⟨rfl, ?_⟩
    intro c hc
    simp at hc
    rcases hc with h | h <;> omega
  · rw [decChars_two n (by omega) h]
    refine ⟨rfl, ?_⟩
    intro c hc
    simp at hc
    have h10 : n / 10 ≤ 9 := by omega
    have hm : n % 10 ≤ 9 := by omega
    rcases hc with h | h <;> omega

theorem isDigits_decChars_year (n : Nat) (h1 : 1000 ≤ n) (h2 : n ≤ 9999) :
    IsDigits 4 (decChars n) := by
  rw [decChars_four n h1 h2]
  refine ⟨rfl, ?_⟩
  intro c hc
  simp at hc
  have ha : n / 1000 ≤ 9 := by omega
  have hb : n / 100 % 10 ≤ 9 := by omega
  have hcm : n / 10 % 10 ≤ 9 := by omega
  have hd : n % 10 ≤ 9 := by omega
  rcases hc with h | h | h | h <;> omega

/-! ### Helper lemmas: the timestamp's bytes -/

theorem mem_getCurrentDateTime_ge32 (t : Tm) (c : Nat)
    (hc : c ∈ getCurrentDateTime t) : 32 ≤ c := by
  unfold getCurrentDateTime at hc
  simp only [List.mem_append, List.mem_singleton, List.mem_cons,
    List.not_mem_nil, or_false] at hc
  casesm* _ ∨ _
  all_goals first
    | omega
    | (exact le_trans (by omega) (mem_pad2_ge48 _ _ (by assumption)))
    | (exact le_trans (by omega) (mem_decChars _ _ (by assumption)).1)

theorem tab_not_mem_ts (t : Tm) : tabByte ∉ getCurrentDateTime t := by
  intro h
  have := mem_getCurrentDateTime_ge32 t tabByte h
  simp [tabByte] at this

theorem nl_not_mem_ts (t : Tm) : nlByte ∉ getCurrentDateTime t := by
  intro h
  have := mem_getCurrentDateTime_ge32 t nlByte h
  simp [nlByte] at this

/-! ### Helper lemmas: filesystem operations -/

theorem FS.read_write_self (fs : FS) (p : FsPath) (b : Bytes) :
    (fs.write p b).read p = some b := by
  simp [FS.read, FS.write, assocRead]

theorem FS.read_write_other (fs : FS) (p q : FsPath) (b : Bytes) (h : q ≠ p) :
    (fs.write p b).read q = fs.read q := by
  simp only [FS.read, FS.write, assocRead]
  rw [if_neg (fun h2 => h h2.symm)]

theorem FS.openApp_none (fs : FS) (p : FsPath) (h : p.dropLast ∉ fs.dirs) :
    fs.openApp p = none := by
  simp [FS.openApp, h]

theorem FS.openApp_some (fs : FS) (p : FsPath) (h : p.dropLast ∈ fs.dirs) :
    ∃ fs1, fs.openApp p = some fs1 ∧
      fs1.dirs = fs.dirs ∧ fs1.diskFull = fs.diskFull ∧
      fs1.read p = some (fs.contentOf p) ∧
      (∀ q, q ≠ p → fs1.read q = fs.read q) := by
  by_cases hs : (fs.read p).isSome
  · refine ⟨fs, by simp [FS.openApp, h, hs], rfl, rfl, ?_, fun q hq => rfl⟩
    rcases Option.isSome_iff_exists.mp hs with ⟨b, hb⟩
    simp [FS.contentOf, hb]
  · refine ⟨fs.write p [], by simp [FS.openApp, h, hs], rfl, rfl, ?_,
      fun q hq => FS.read_write_other fs p q [] hq⟩
    rw [FS.read_write_self]
    simp [FS.contentOf, Option.not_isSome_iff_eq_none.mp hs]

/-! ### Helper lemmas: the behavior of one `Log` call -/

theorem Log_openFail (fs : FS) (p : FsPath) (l m : Bytes) (t : Tm)
    (h : p.dropLast ∉ fs.dirs) : CLogger.Log fs p l m t = (fs, ()) := by
  simp [CLogger.Log, FS.openApp_none fs p h]

theorem Log_success_contentOf (fs : FS) (p : FsPath) (l m : Bytes) (t : Tm)
    (hdir : p.dropLast ∈ fs.dirs) (hdf : fs.diskFull = false) :
    (CLogger.Log fs p l m t).1.contentOf p = fs.contentOf p ++ logLine t l m := by
  rcases FS.openApp_some fs p hdir with ⟨fs1, hopen, _, hfull, hread, _⟩
  simp only [CLogger.Log, hopen]
  rw [hfull, hdf]
  simp only [Bool.false_eq_true, if_false]
  simp [FS.contentOf, FS.read_write_self, hread]

theorem Log_dirs (fs : FS) (p : FsPath) (l m : Bytes) (t : Tm) :
    (CLogger.Log fs p l m t).1.dirs = fs.dirs := by
  by_cases h : p.dropLast ∈ fs.dirs
  · rcases FS.openApp_some fs p h with ⟨fs1, hopen, hdirs, _, _, _⟩
    simp only [CLogger.Log, hopen]
    by_cases hf : fs1.diskFull = true
    · rw [if_pos hf]
      exact hdirs
    · rw [if_neg hf]
      simpa [FS.write] using hdirs
  · simp [CLogger.Log, FS.openApp_none fs p h]

theorem Log_diskFull (fs : FS) (p : FsPath) (l m : Bytes) (t : Tm) :
    (CLogger.Log fs p l m t).1.diskFull = fs.diskFull := by
  by_cases h : p.dropLast ∈ fs.dirs
  · rcases FS.openApp_some fs p h with ⟨fs1, hopen, _, hfull, _, _⟩
    simp only [CLogger.Log, hopen]
    by_cases hf : fs1.diskFull = true
    · rw [if_pos hf]
      exact hfull
    · rw [if_neg hf]
      simpa [FS.write] using hfull
  · simp [CLogger.Log, FS.openApp_none fs p h]

theorem Log_fail_contentOf (fs : FS) (p : FsPath) (l m : Bytes) (t : Tm)
    (h : p.dropLast ∉ fs.dirs ∨ fs.diskFull = true) :
    (CLogger.Log fs p l m t).1.contentOf p = fs.contentOf p := by
  by_cases hdir : p.dropLast ∈ fs.dirs
  · rcases FS.openApp_some fs p hdir with ⟨fs1, hopen, _, hfull, hread, _⟩
    simp only [CLogger.Log, hopen]
    rcases h with h | h
    · exact absurd hdir h
    · rw [if_pos (hfull.trans h)]
      simp [FS.contentOf, hread]
  · simp [CLogger.Log, FS.openApp_none fs p hdir]

theorem Log_contentOf_prefixOf (fs : FS) (p : FsPath) (l m : Bytes) (t : Tm) :
    fs.contentOf p <+: (CLogger.Log fs p l m t).1.contentOf p := by
  by_cases hdir : p.dropLast ∈ fs.dirs
  · by_cases hdf : fs.diskFull
    · rw [Log_fail_contentOf fs p l m t (Or.inr hdf)]
    · rw [Log_success_contentOf fs p l m t hdir (Bool.not_eq_true _ |>.mp hdf)]
      exact List.prefix_append _ _
  · rw [Log_fail_contentOf fs p l m t (Or.inl hdir)]

theorem Log_read_other (fs : FS) (p q : FsPath) (l m : Bytes) (t : Tm)
    (hq : q ≠ p) : (CLogger.Log fs p l m t).1.read q = fs.read q := by
  by_cases hdir : p.dropLast ∈ fs.dirs
  · rcases FS.openApp_some fs p hdir with ⟨fs1, hopen, _, _, _, hother⟩
    simp only [CLogger.Log, hopen]
    by_cases hf : fs1.diskFull = true
    · rw [if_pos hf]
      exact hother q hq
    · rw [if_neg hf]
      show (fs1.write p _).read q = fs.read q
      rw [FS.read_write_other fs1 p q _ hq]
      exact hother q hq
  · simp [CLogger.Log, FS.openApp_none fs p hdir]

theorem Log_snd (fs : FS) (p : FsPath) (l m : Bytes) (t : Tm) :
    (CLogger.Log fs p l m t).2 = () := rfl

/-! ### Helper lemmas: sequences of calls, line counting -/

theorem logSeq_contentOf (p : FsPath) (cs : List LogCall) :
    ∀ fs : FS, p.dropLast ∈ fs.dirs → fs.diskFull = false →
      (logSeq fs p cs).contentOf p =
        fs.contentOf p ++ (cs.map (fun c => logLine c.t c.level c.msg)).flatten := by
  induction cs with
  | nil => intro fs _ _; simp [logSeq]
  | cons c rest ih =>
    intro fs hdir hdf
    have hdir1 : p.dropLast ∈ (CLogger.Log fs p c.level c.msg c.t).1.dirs := by
      rw [Log_dirs]; exact hdir
    have hdf1 : (CLogger.Log fs p c.level c.msg c.t).1.diskFull = false := by
      rw [Log_diskFull]; exact hdf
    simp only [logSeq, List.map_cons, List.flatten_cons]
    rw [ih _ hdir1 hdf1, Log_success_contentOf fs p c.level c.msg c.t hdir hdf,
      List.append_assoc]

theorem countLines_append (a b : Bytes) :
    countLines (a ++ b) = countLines a + countLines b := by
  simp [countLines, List.count_append]

theorem countLines_logLine (t : Tm) (l m : Bytes) (hl : nlByte ∉ l)
    (hm : nlByte ∉ wideToNarrow m) : countLines (logLine t l m) = 1 := by
  unfold logLine lineBody
  repeat rw [countLines_append]
  unfold countLines
  rw [List.count_eq_zero.mpr (nl_not_mem_ts t)]
  rw [List.count_eq_zero.mpr hl]
  rw [List.count_eq_zero.mpr hm]
  simp [tabByte, nlByte]

/-! ### Claim theorems -/

/-- C1: for every call `Log(path, level, message)` that succeeds (the open
finds the parent directory and the storage accepts the write), the bytes
appended to the file at `path` are exactly
`<timestamp> TAB <level> TAB <message> NEWLINE` — a single tab between
fields, a single newline terminator, and nothing else (the message as
written is its narrowed byte form). -/
theorem c1_log_appends_exact_line (fs : FS) (p : FsPath)
    (level logMsg : Bytes) (t : Tm) (hdir : p.dropLast ∈ fs.dirs)
    (hdf : fs.diskFull = false) :
    (CLogger.Log fs p level logMsg t).1.contentOf p =
      fs.contentOf p ++
        (getCurrentDateTime t ++ [tabByte] ++ level ++ [tabByte] ++
          wideToNarrow logMsg ++ [nlByte]) := by
  rw [Log_success_contentOf fs p level logMsg t hdir hdf]
  simp [logLine, lineBody, List.append_assoc]

theorem c1_witness :
    (([0, 1] : FsPath).dropLast ∈ (FS.mk [[0]] [] false).dirs) ∧
    (FS.mk [[0]] [] false).diskFull = false ∧
    (CLogger.Log (FS.mk [[0]] [] false) [0, 1] [69, 82, 82] [100, 102]
        (Tm.mk 31 2 14 5 2 124)).1.contentOf [0, 1] =
      (FS.mk [[0]] [] false).contentOf [0, 1] ++
        (getCurrentDateTime (Tm.mk 31 2 14 5 2 124) ++ [tabByte] ++
          [69, 82, 82] ++ [tabByte] ++ wideToNarrow [100, 102] ++ [nlByte]) :=
  ⟨by decide, by decide,
    c1_log_appends_exact_line (FS.mk [[0]] [] false) [0, 1] [69, 82, 82]
      [100, 102] (Tm.mk 31 2 14 5 2 124) (by decide) (by decide)⟩

/-- C4: for every call (i.e. for every normalized `struct tm` a successful
`localtime` can produce), the timestamp field has the fixed-width form
`[DD-MM-YYYY HH:MM:SS]`: it matches the pattern
two digits, dash, two digits, dash, four digits, space, two digits,
colon, two digits, colon, two digits, inside square brackets. -/
theorem c4_timestamp_matches_pattern (t : Tm) (hv : t.Valid) :
    TsPattern (getCurrentDateTime t) := by
  obtain ⟨h1, h2, h3, h4, h5, h6, h7, h8⟩ := hv
  refine ⟨pad2 t.mday, pad2 (t.mon + 1), decChars (1900 + t.year),
    pad2 t.hour, pad2 t.mnt, pad2 t.sec,
    isDigits_pad2 _ (by omega), isDigits_pad2 _ (by omega),
    isDigits_decChars_year _ (by omega) (by omega),
    isDigits_pad2 _ (by omega), isDigits_pad2 _ (by omega),
    isDigits_pad2 _ (by omega), rfl⟩

theorem c4_witness :
    (Tm.mk 31 2 14 5 2 124).Valid ∧
    TsPattern (getCurrentDateTime (Tm.mk 31 2 14 5 2 124)) :=
  ⟨by decide, c4_timestamp_matches_pattern (Tm.mk 31 2 14 5 2 124) (by decide)⟩

/-- C7: for every call in which opening fails (missing parent directory)
or writing fails (storage rejects writes), no log line is appended (the
file's contents are unchanged), and the caller receives no indication of
the failure: the call returns the same `void` value as always and the
process continues (`Log` is a total function). -/
theorem c7_failure_is_silent (fs : FS) (p : FsPath) (level logMsg : Bytes)
    (t : Tm) (h : p.dropLast ∉ fs.dirs ∨ fs.diskFull = true) :
    (CLogger.Log fs p level logMsg t).1.contentOf p = fs.contentOf p ∧
    (CLogger.Log fs p level logMsg t).2 = () :=
  ⟨Log_fail_contentOf fs p level logMsg t h, rfl⟩

theorem c7_witness :
    (([0, 1] : FsPath).dropLast ∉ (FS.mk [] [] false).dirs ∨
      (FS.mk [] [] false).diskFull = true) ∧
    (CLogger.Log (FS.mk [] [] false) [0, 1] [69] [100]
        (Tm.mk 31 2 14 5 2 124)).1.contentOf [0, 1] =
      (FS.mk [] [] false).contentOf [0, 1] ∧
    (CLogger.Log (FS.mk [] [] false) [0, 1] [69] [100]
        (Tm.mk 31 2 14 5 2 124)).2 = () :=
  ⟨by decide,
    (c7_failure_is_silent (FS.mk [] [] false) [0, 1] [69] [100]
      (Tm.mk 31 2 14 5 2 124) (by decide)).1,
    (c7_failure_is_silent (FS.mk [] [] false) [0, 1] [69] [100]
      (Tm.mk 31 2 14 5 2 124) (by decide)).2⟩

/-- C10: for every invocation (every `struct tm` a successful `localtime`
can produce), the formatted timestamp is exactly 21 bytes, so with its
terminator it occupies 22 of the 80 bytes of the stack buffer: `strftime`
never truncates and the returned string is fully formatted. -/
theorem c10_timestamp_fits_buffer (t : Tm) (hv : t.Valid) :
    (getCurrentDateTime t).length = 21 ∧
    (getCurrentDateTime t).length + 1 ≤ 80 := by
  obtain ⟨h1, h2, h3, h4, h5, h6, h7, h8⟩ := hv
  have hmday : (pad2 t.mday).length = 2 := (isDigits_pad2 _ (by omega)).1
  have hmon : (pad2 (t.mon + 1)).length = 2 := (isDigits_pad2 _ (by omega)).1
  have hyear : (decChars (1900 + t.year)).length = 4 :=
    (isDigits_decChars_year _ (by omega) (by omega)).1
  have hhour : (pad2 t.hour).length = 2 := (isDigits_pad2 _ (by omega)).1
  have hmnt : (pad2 t.mnt).length = 2 := (isDigits_pad2 _ (by omega)).1
  have hsec : (pad2 t.sec).length = 2 := (isDigits_pad2 _ (by omega)).1
  constructor
  · simp [getCurrentDateTime, hmday, hmon, hyear, hhour, hmnt, hsec]
  · simp [getCurrentDateTime, hmday, hmon, hyear, hhour, hmnt, hsec]

theorem c10_witness :
    (Tm.mk 31 2 14 5 2 124).Valid ∧
    (getCurrentDateTime (Tm.mk 31 2 14 5 2 124)).length = 21 ∧
    (getCurrentDateTime (Tm.mk 31 2 14 5 2 124)).length + 1 ≤ 80 :=
  ⟨by decide, c10_timestamp_fits_buffer (Tm.mk 31 2 14 5 2 124) (by decide)⟩

/-- C3 counterexample: the claim says a call with a missing parent
directory "reports failure to the caller".  At the concrete input below
the filesystem part holds (nothing is created or written), but nothing is
reported: `Log` returns `void`, and its caller-visible return value on
the failing filesystem is identical to its return value on a filesystem
where the same call succeeds (where it demonstrably changes the
filesystem).  The caller cannot observe the failure, so the claim as
stated is false. -/
theorem c3_counterexample :
    (([0, 1] : FsPath).dropLast ∉ (FS.mk [] [] false).dirs) ∧
    (([0, 1] : FsPath).dropLast ∈ (FS.mk [[0]] [] false).dirs) ∧
    (CLogger.Log (FS.mk [] [] false) [0, 1] [69] [100]
        (Tm.mk 31 2 14 5 2 124)).2 =
      (CLogger.Log (FS.mk [[0]] [] false) [0, 1] [69] [100]
        (Tm.mk 31 2 14 5 2 124)).2 ∧
    (CLogger.Log (FS.mk [] [] false) [0, 1] [69] [100]
        (Tm.mk 31 2 14 5 2 124)).1 = FS.mk [] [] false ∧
    (CLogger.Log (FS.mk [[0]] [] false) [0, 1] [69] [100]
        (Tm.mk 31 2 14 5 2 124)).1 ≠ FS.mk [[0]] [] false := by
  decide

/-- C3 amended: for every call to `Log` with a path whose parent directory
does not exist, the filesystem is left entirely unchanged — no file is
created and no partial or corrupt content is written — but the failure is
silent rather than reported: the call returns the usual `void` value and
gives the caller no indication that logging failed. -/
theorem c3_amended_openfail_leaves_fs_unchanged (fs : FS) (p : FsPath)
    (level logMsg : Bytes) (t : Tm) (h : p.dropLast ∉ fs.dirs) :
    (CLogger.Log fs p level logMsg t).1 = fs ∧
    (CLogger.Log fs p level logMsg t).2 = () := by
  rw [Log_openFail fs p level logMsg t h]
  exact ⟨rfl, rfl⟩

theorem c3_witness :
    (([0, 1] : FsPath).dropLast ∉ (FS.mk [[5]] [] false).dirs) ∧
    (CLogger.Log (FS.mk [[5]] [] false) [0, 1] [69] [100]
        (Tm.mk 31 2 14 5 2 124)).1 = FS.mk [[5]] [] false ∧
    (CLogger.Log (FS.mk [[5]] [] false) [0, 1] [69] [100]
        (Tm.mk 31 2 14 5 2 124)).2 = () :=
  ⟨by decide,
    (c3_amended_openfail_leaves_fs_unchanged (FS.mk [[5]] [] false) [0, 1]
      [69] [100] (Tm.mk 31 2 14 5 2 124) (by decide)).1,
    (c3_amended_openfail_leaves_fs_unchanged (FS.mk [[5]] [] false) [0, 1]
      [69] [100] (Tm.mk 31 2 14 5 2 124) (by decide)).2⟩

/-- C8: for every file state and every call, the bytes already present
are unchanged — the old contents are a prefix of the new contents, for
every filesystem, path and arguments, including failing ones — and in
particular two successive calls on the same path leave both lines, in
call order, after the prior contents. -/
theorem c8_append_never_overwrites (fs : FS) (p : FsPath)
    (l1 m1 l2 m2 : Bytes) (t1 t2 : Tm) (fs2 : FS) (q : FsPath)
    (l m : Bytes) (t : Tm) (hdir : p.dropLast ∈ fs.dirs)
    (hdf : fs.diskFull = false) :
    fs2.contentOf q <+: (CLogger.Log fs2 q l m t).1.contentOf q ∧
    (CLogger.Log (CLogger.Log fs p l1 m1 t1).1 p l2 m2 t2).1.contentOf p =
      fs.contentOf p ++ logLine t1 l1 m1 ++ logLine t2 l2 m2 := by
  refine ⟨Log_contentOf_prefixOf fs2 q l m t, ?_⟩
  have hdir1 : p.dropLast ∈ (CLogger.Log fs p l1 m1 t1).1.dirs := by
    rw [Log_dirs]; exact hdir
  have hdf1 : (CLogger.Log fs p l1 m1 t1).1.diskFull = false := by
    rw [Log_diskFull]; exact hdf
  rw [Log_success_contentOf _ p l2 m2 t2 hdir1 hdf1,
    Log_success_contentOf fs p l1 m1 t1 hdir hdf, List.append_assoc]

theorem c8_witness :
    (([0, 1] : FsPath).dropLast ∈ (FS.mk [[0]] [([0, 1], [104, 105])] false).dirs) ∧
    (FS.mk [[0]] [([0, 1], [104, 105])] false).diskFull = false ∧
    ((FS.mk [[0]] [([0, 1], [104, 105])] false).contentOf [0, 1] <+:
      (CLogger.Log (FS.mk [[0]] [([0, 1], [104, 105])] false) [0, 1] [87] [33]
        (Tm.mk 31 2 14 5 2 124)).1.contentOf [0, 1]) ∧
    (CLogger.Log
        (CLogger.Log (FS.mk [[0]] [([0, 1], [104, 105])] false) [0, 1] [87] [33]
          (Tm.mk 31 2 14 5 2 124)).1 [0, 1] [88] [34]
        (Tm.mk 32 2 14 5 2 124)).1.contentOf [0, 1] =
      (FS.mk [[0]] [([0, 1], [104, 105])] false).contentOf [0, 1] ++
        logLine (Tm.mk 31 2 14 5 2 124) [87] [33] ++
        logLine (Tm.mk 32 2 14 5 2 124) [88] [34] :=
  ⟨by decide, by decide,
    (c8_append_never_overwrites (FS.mk [[0]] [([0, 1], [104, 105])] false)
      [0, 1] [87] [33] [88] [34] (Tm.mk 31 2 14 5 2 124) (Tm.mk 32 2 14 5 2 124)
      (FS.mk [[0]] [([0, 1], [104, 105])] false) [0, 1] [87] [33]
      (Tm.mk 31 2 14 5 2 124) (by decide) (by decide)).1,
    (c8_append_never_overwrites (FS.mk [[0]] [([0, 1], [104, 105])] false)
      [0, 1] [87] [33] [88] [34] (Tm.mk 31 2 14 5 2 124) (Tm.mk 32 2 14 5 2 124)
      (FS.mk [[0]] [([0, 1], [104, 105])] false) [0, 1] [87] [33]
      (Tm.mk 31 2 14 5 2 124) (by decide) (by decide)).2⟩

/-- C9: `Log` narrows the wide message to bytes before writing, keeping
the low 8 bits of each character (`c % 256`) — total, so characters
outside the narrow range are lossily mapped rather than rejected and the
call still succeeds — every character already in the narrow range is
preserved unchanged, and for a message entirely in the narrow range the
message field written to the file equals the input character for
character. -/
theorem c9_narrowing_is_lossy_not_rejecting (logMsg : Bytes)
    (h : ∀ c ∈ logMsg, c < 256) (fs : FS) (p : FsPath) (level : Bytes)
    (t : Tm) (hdir : p.dropLast ∈ fs.dirs) (hdf : fs.diskFull = false) :
    wideToNarrow logMsg = logMsg ∧
    (∀ ms : Bytes, wideToNarrow ms = ms.map (fun c => c % 256)) ∧
    (CLogger.Log fs p level logMsg t).1.contentOf p =
      fs.contentOf p ++
        (getCurrentDateTime t ++ [tabByte] ++ level ++ [tabByte] ++
          logMsg ++ [nlByte]) := by
  have hid : wideToNarrow logMsg = logMsg := by
    unfold wideToNarrow
    conv_rhs => rw [← List.map_id logMsg]
    exact List.map_congr_left (fun c hc => Nat.mod_eq_of_lt (h c hc))
  refine ⟨hid, fun ms => rfl, ?_⟩
  rw [Log_success_contentOf fs p level logMsg t hdir hdf]
  simp [logLine, lineBody, hid, List.append_assoc]

theorem c9_witness :
    (∀ c ∈ ([72, 105, 255] : Bytes), c < 256) ∧
    (([0, 1] : FsPath).dropLast ∈ (FS.mk [[0]] [] false).dirs) ∧
    (FS.mk [[0]] [] false).diskFull = false ∧
    wideToNarrow [72, 105, 255] = [72, 105, 255] ∧
    (∀ ms : Bytes, wideToNarrow ms = ms.map (fun c => c % 256)) ∧
    (CLogger.Log (FS.mk [[0]] [] false) [0, 1] [68] [72, 105, 255]
        (Tm.mk 31 2 14 5 2 124)).1.contentOf [0, 1] =
      (FS.mk [[0]] [] false).contentOf [0, 1] ++
        (getCurrentDateTime (Tm.mk 31 2 14 5 2 124) ++ [tabByte] ++ [68] ++
          [tabByte] ++ [72, 105, 255] ++ [nlByte]) :=
  ⟨by decide, by decide, by decide,
    (c9_narrowing_is_lossy_not_rejecting [72, 105, 255] (by decide)
      (FS.mk [[0]] [] false) [0, 1] [68] (Tm.mk 31 2 14 5 2 124)
      (by decide) (by decide)).1,
    (c9_narrowing_is_lossy_not_rejecting [72, 105, 255] (by decide)
      (FS.mk [[0]] [] false) [0, 1] [68] (Tm.mk 31 2 14 5 2 124)
      (by decide) (by decide)).2.1,
    (c9_narrowing_is_lossy_not_rejecting [72, 105, 255] (by decide)
      (FS.mk [[0]] [] false) [0, 1] [68] (Tm.mk 31 2 14 5 2 124)
      (by decide) (by decide)).2.2⟩

theorem countLines_flatten_logLines (cs : List LogCall)
    (hclean : ∀ c ∈ cs, nlByte ∉ c.level ∧ nlByte ∉ wideToNarrow c.msg) :
    countLines ((cs.map (fun c => logLine c.t c.level c.msg)).flatten) =
      cs.length := by
  induction cs with
  | nil => simp [countLines]
  | cons c rest ih =>
    simp only [List.map_cons, List.flatten_cons]
    rw [countLines_append,
      countLines_logLine c.t c.level c.msg (hclean c (by simp)).1
        (hclean c (by simp)).2,
      ih (fun d hd => hclean d (List.mem_cons_of_mem c hd))]
    simp [Nat.add_comm]

/-- C2 counterexample: one successful, strictly sequential call on a
fresh path whose message narrows to bytes containing a newline leaves a
file with two lines, not one — the claim as stated (for every sequence,
with no restriction on the arguments) is false for N = 1. -/
theorem c2_counterexample :
    (FS.mk [[0]] [] false).read [0, 1] = none ∧
    (([0, 1] : FsPath).dropLast ∈ (FS.mk [[0]] [] false).dirs) ∧
    (FS.mk [[0]] [] false).diskFull = false ∧
    ([LogCall.mk [76] [97, 10, 98] (Tm.mk 31 2 14 5 2 124)]).length = 1 ∧
    countLines ((logSeq (FS.mk [[0]] [] false) [0, 1]
      [LogCall.mk [76] [97, 10, 98] (Tm.mk 31 2 14 5 2 124)]).contentOf
        [0, 1]) = 2 := by
  decide

/-- C2 amended: for every N successful, strictly sequential calls on the
same initially nonexistent (fresh) path, provided no level and no
narrowed message contains a newline byte, the resulting file is exactly
the concatenation, in call order, of the N formatted lines of section 6,
and it contains exactly N lines. -/
theorem c2_amended_sequential_calls (fs : FS) (p : FsPath)
    (cs : List LogCall) (hfresh : fs.read p = none)
    (hdir : p.dropLast ∈ fs.dirs) (hdf : fs.diskFull = false)
    (hclean : ∀ c ∈ cs, nlByte ∉ c.level ∧ nlByte ∉ wideToNarrow c.msg) :
    (logSeq fs p cs).contentOf p =
      (cs.map (fun c => logLine c.t c.level c.msg)).flatten ∧
    countLines ((logSeq fs p cs).contentOf p) = cs.length := by
  have hmain := logSeq_contentOf p cs fs hdir hdf
  have hempty : fs.contentOf p = [] := by simp [FS.contentOf, hfresh]
  rw [hempty, List.nil_append] at hmain
  exact ⟨hmain, by rw [hmain]; exact countLines_flatten_logLines cs hclean⟩

theorem c2_witness :
    (FS.mk [[0]] [] false).read [0, 1] = none ∧
    (([0, 1] : FsPath).dropLast ∈ (FS.mk [[0]] [] false).dirs) ∧
    (FS.mk [[0]] [] false).diskFull = false ∧
    (∀ c ∈ [LogCall.mk [73] [104, 105] (Tm.mk 31 2 14 5 2 124),
        LogCall.mk [69] [98] (Tm.mk 32 2 14 5 2 124)],
      nlByte ∉ c.level ∧ nlByte ∉ wideToNarrow c.msg) ∧
    (logSeq (FS.mk [[0]] [] false) [0, 1]
        [LogCall.mk [73] [104, 105] (Tm.mk 31 2 14 5 2 124),
          LogCall.mk [69] [98] (Tm.mk 32 2 14 5 2 124)]).contentOf [0, 1] =
      (([LogCall.mk [73] [104, 105] (Tm.mk 31 2 14 5 2 124),
          LogCall.mk [69] [98] (Tm.mk 32 2 14 5 2 124)]).map
        (fun c => logLine c.t c.level c.msg)).flatten ∧
    countLines ((logSeq (FS.mk [[0]] [] false) [0, 1]
        [LogCall.mk [73] [104, 105] (Tm.mk 31 2 14 5 2 124),
          LogCall.mk [69] [98] (Tm.mk 32 2 14 5 2 124)]).contentOf [0, 1]) =
      ([LogCall.mk [73] [104, 105] (Tm.mk 31 2 14 5 2 124),
        LogCall.mk [69] [98] (Tm.mk 32 2 14 5 2 124)]).length :=
  ⟨by decide, by decide, by decide, by decide,
    (c2_amended_sequential_calls (FS.mk [[0]] [] false) [0, 1]
      [LogCall.mk [73] [104, 105] (Tm.mk 31 2 14 5 2 124),
        LogCall.mk [69] [98] (Tm.mk 32 2 14 5 2 124)]
      (by decide) (by decide) (by decide) (by decide)).1,
    (c2_amended_sequential_calls (FS.mk [[0]] [] false) [0, 1]
      [LogCall.mk [73] [104, 105] (Tm.mk 31 2 14 5 2 124),
        LogCall.mk [69] [98] (Tm.mk 32 2 14 5 2 124)]
      (by decide) (by decide) (by decide) (by decide)).2⟩

/-- C5 counterexample: the wide character 400 contains no tab and no
newline, yet the message field written for it is its narrowed byte
400 % 256 = 144 — the produced line still splits into three fields, but
the third field is not equal to the message, so the claim as stated is
false.  (A wide character such as 265 would even narrow to the tab byte
itself and change the field count.) -/
theorem c5_counterexample :
    (tabByte ∉ ([400] : Bytes)) ∧ (nlByte ∉ ([400] : Bytes)) ∧
    List.splitOn tabByte (lineBody (Tm.mk 31 2 14 5 2 124) [69] [400]) =
      [getCurrentDateTime (Tm.mk 31 2 14 5 2 124), [69], [144]] ∧
    (([144] : Bytes) ≠ [400]) := by
  decide

/-- C5 amended: for every level and message whose bytes — for the
message, the narrowed bytes actually written — contain neither a tab nor
a newline, splitting the produced line (its body, before the newline
terminator) on the tab character yields exactly three fields, equal
respectively to the timestamp, the level and the narrowed message; and
whenever every message character lies in the narrow range the narrowed
message is the message itself, giving the round trip of the original
claim. -/
theorem c5_amended_split_three_fields (t : Tm) (level logMsg : Bytes)
    (hlt : tabByte ∉ level) (_hln : nlByte ∉ level)
    (hmt : tabByte ∉ wideToNarrow logMsg)
    (_hmn : nlByte ∉ wideToNarrow logMsg) :
    List.splitOn tabByte (lineBody t level logMsg) =
      [getCurrentDateTime t, level, wideToNarrow logMsg] ∧
    ((∀ c ∈ logMsg, c < 256) → wideToNarrow logMsg = logMsg) := by
  constructor
  · have heq : lineBody t level logMsg =
        [tabByte].intercalate
          [getCurrentDateTime t, level, wideToNarrow logMsg] := by
      simp [lineBody, List.intercalate]
    rw [heq]
    refine List.splitOn_intercalate
      [getCurrentDateTime t, level, wideToNarrow logMsg] tabByte ?_ (by simp)
    intro l hl
    simp only [List.mem_cons, List.not_mem_nil, or_false] at hl
    rcases hl with h | h | h
    · subst h; exact tab_not_mem_ts t
    · subst h; exact hlt
    · subst h; exact hmt
  · intro h
    unfold wideToNarrow
    conv_rhs => rw [← List.map_id logMsg]
    exact List.map_congr_left (fun c hc => Nat.mod_eq_of_lt (h c hc))

theorem c5_witness :
    (tabByte ∉ ([69, 82] : Bytes)) ∧ (nlByte ∉ ([69, 82] : Bytes)) ∧
    (tabByte ∉ wideToNarrow [111, 107]) ∧
    (nlByte ∉ wideToNarrow [111, 107]) ∧
    List.splitOn tabByte (lineBody (Tm.mk 31 2 14 5 2 124) [69, 82]
        [111, 107]) =
      [getCurrentDateTime (Tm.mk 31 2 14 5 2 124), [69, 82],
        wideToNarrow [111, 107]] ∧
    ((∀ c ∈ ([111, 107] : Bytes), c < 256) →
      wideToNarrow [111, 107] = [111, 107]) :=
  ⟨by decide, by decide, by decide, by decide,
    (c5_amended_split_three_fields (Tm.mk 31 2 14 5 2 124) [69, 82]
      [111, 107] (by decide) (by decide) (by decide) (by decide)).1,
    (c5_amended_split_three_fields (Tm.mk 31 2 14 5 2 124) [69, 82]
      [111, 107] (by decide) (by decide) (by decide) (by decide)).2⟩

/-- C6 counterexample: a successful call whose message narrows to the
newline byte appends two newline characters, not exactly one, so the
claim's "for every level and message argument" is false. -/
theorem c6_counterexample :
    (([0, 1] : FsPath).dropLast ∈ (FS.mk [[0]] [] false).dirs) ∧
    (FS.mk [[0]] [] false).diskFull = false ∧
    countLines ((FS.mk [[0]] [] false).contentOf [0, 1]) = 0 ∧
    countLines ((CLogger.Log (FS.mk [[0]] [] false) [0, 1] [69] [10]
      (Tm.mk 31 2 14 5 2 124)).1.contentOf [0, 1]) = 2 := by
  decide

/-- C6 amended: every successful call appends exactly one newline
character to the file, for every level and message whose bytes (for the
message, the narrowed bytes actually written) contain no newline. -/
theorem c6_amended_exactly_one_line (fs : FS) (p : FsPath)
    (level logMsg : Bytes) (t : Tm) (hdir : p.dropLast ∈ fs.dirs)
    (hdf : fs.diskFull = false) (hl : nlByte ∉ level)
    (hm : nlByte ∉ wideToNarrow logMsg) :
    countLines ((CLogger.Log fs p level logMsg t).1.contentOf p) =
      countLines (fs.contentOf p) + 1 := by
  rw [Log_success_contentOf fs p level logMsg t hdir hdf, countLines_append,
    countLines_logLine t level logMsg hl hm]

theorem c6_witness :
    (([0, 1] : FsPath).dropLast ∈ (FS.mk [[0]] [] false).dirs) ∧
    (FS.mk [[0]] [] false).diskFull = false ∧
    (nlByte ∉ ([69] : Bytes)) ∧ (nlByte ∉ wideToNarrow [104, 105]) ∧
    countLines ((CLogger.Log (FS.mk [[0]] [] false) [0, 1] [69] [104, 105]
        (Tm.mk 31 2 14 5 2 124)).1.contentOf [0, 1]) =
      countLines ((FS.mk [[0]] [] false).contentOf [0, 1]) + 1 :=
  ⟨by decide, by decide, by decide, by decide,
    c6_amended_exactly_one_line (FS.mk [[0]] [] false) [0, 1] [69] [104, 105]
      (Tm.mk 31 2 14 5 2 124) (by decide) (by decide) (by decide) (by decide)⟩
